import Mathlib

/-!
Verification development for the arc-arxiv repository.

The two core components specified for this repository are embedded here:

* the identifier normalizer (`NormalizeArxivID` / `IsValidArxivID` from
  `internal/arxiv/client.go`), including a faithful embedding of the three Go
  regular expressions `oldIDPattern`, `newIDPattern` and `urlPattern` and of
  `strings.TrimSpace`, and

* the metadata mapper (`articleToMeta` / `MetaToArticle` from the same file),
  over record types mirroring `goarxiv.Article`/`goarxiv.Author` and the local
  `ArxivMeta`/`Author` types.

Go machine behaviour (regexp matching, `strings.TrimSpace`, `time.Parse` /
`time.Format`) and the external goarxiv helper methods (`BaseID`, `Version`,
`AbstractURL`, `PDFURL`) are modelled explicitly; each such definition carries
a comment saying what it models.
-/

namespace ArcArxiv

/-! ## Go primitives -/

/-- Modelled from the spec: the whitespace class used by Go's
`strings.TrimSpace` (`unicode.IsSpace`), restricted to the Latin-1 range:
space, tab, newline, vertical tab, form feed, carriage return, NEL and NBSP.
The spec only requires "leading/trailing whitespace (including newlines and
tabs)" to be stripped. -/
def goIsSpace (c : Char) : Bool :=
  c == ' ' || c == '\t' || c == '\n' || c == '\x0b' || c == '\x0c' || c == '\r' ||
    c == '\x85' || c == '\xa0'

/-- Modelled from the spec: Go's `strings.TrimSpace` — drop leading and
trailing whitespace characters. -/
def goTrimSpace (s : String) : String :=
  String.mk (((s.data.dropWhile goIsSpace).reverse.dropWhile goIsSpace).reverse)

/-- Decimal value of a digit string, as Go's version-number parsing reads it. -/
def digitsToNat (ds : List Char) : Nat :=
  ds.foldl (fun acc c => acc * 10 + (c.toNat - '0'.toNat)) 0

/-! ## The regular expressions of `client.go`

```
oldIDPattern = `^[a-z-]+/\d{7}(v\d+)?$`
newIDPattern = `^\d{4}\.\d{4,5}(v\d+)?$`
urlPattern   = `arxiv\.org/(?:abs|pdf)/([a-z-]+/\d{7}|\d{4}\.\d{4,5})(v\d+)?(?:\.pdf)?`
```

`oldIDPattern`/`newIDPattern` are used via `MatchString` (anchored, so they
match the whole string); `urlPattern` is used via `FindStringSubmatch`
(unanchored leftmost search, greedy/backtracking-first submatches). The
embeddings below implement exactly those semantics over `List Char`; note that
for these patterns the greedy maximal-munch strategy coincides with the
regexp's leftmost-first strategy, because the character following each
repetition class is never a member of the class. -/

/-- The regex character class `[a-z-]`. -/
def isArchChar (c : Char) : Bool :=
  c.isLower || c == '-'

/-- Matches the anchored regex fragment `(v\d+)?$`. -/
def matchVersionTail (cs : List Char) : Bool :=
  match cs with
  | [] => true
  | c :: r => c == 'v' && !r.isEmpty && r.all Char.isDigit

/-- Whole-string match for `oldIDPattern = ^[a-z-]+/\d{7}(v\d+)?$`. -/
def matchOld (cs : List Char) : Bool :=
  let arch := cs.takeWhile isArchChar
  match cs.dropWhile isArchChar with
  | c :: r =>
    !arch.isEmpty && c == '/' && (r.takeWhile Char.isDigit).length == 7 &&
      matchVersionTail (r.dropWhile Char.isDigit)
  | [] => false

/-- Whole-string match for `newIDPattern = ^\d{4}\.\d{4,5}(v\d+)?$`. -/
def matchNew (cs : List Char) : Bool :=
  let d1 := cs.takeWhile Char.isDigit
  match cs.dropWhile Char.isDigit with
  | c :: r =>
    d1.length == 4 && c == '.' &&
      ((r.takeWhile Char.isDigit).length == 4 || (r.takeWhile Char.isDigit).length == 5) &&
      matchVersionTail (r.dropWhile Char.isDigit)
  | [] => false

/-- Strip an expected literal prefix, as the regexp engine consumes literal
characters. -/
def stripPrefixL : List Char → List Char → Option (List Char)
  | [], cs => some cs
  | _ :: _, [] => none
  | p :: ps, c :: cs => if c = p then stripPrefixL ps cs else none

/-- The optional capture group `(v\d+)?` of `urlPattern`, unanchored: greedy,
and the empty capture when the group does not participate (Go reports it as
`""`). -/
def urlVersionGroup (cs : List Char) : List Char :=
  match cs with
  | c :: r =>
    if c = 'v' then
      let ds := r.takeWhile Char.isDigit
      if ds.isEmpty then [] else 'v' :: ds
    else []
  | [] => []

/-- The part of `urlPattern` after `arxiv\.org/(?:abs|pdf)/`: the capture
group `([a-z-]+/\d{7}|\d{4}\.\d{4,5})` followed by `(v\d+)?(?:\.pdf)?`,
unanchored at the right. Returns the two submatches on success. The first
alternative is tried first, exactly as the backtracking order does; the two
alternatives cannot both start at the same character (`[a-z-]` and `\d` are
disjoint). -/
def matchIDPart (cs : List Char) : Option (List Char × List Char) :=
  let arch := cs.takeWhile isArchChar
  if arch.isEmpty then
    let d1 := cs.take 4
    if d1.length == 4 && d1.all Char.isDigit then
      match cs.drop 4 with
      | c :: r2 =>
        if c = '.' then
          let d2 := r2.takeWhile Char.isDigit
          if 5 ≤ d2.length then
            some (d1 ++ '.' :: d2.take 5, urlVersionGroup (r2.drop 5))
          else if d2.length == 4 then
            some (d1 ++ '.' :: d2, urlVersionGroup (r2.drop 4))
          else none
        else none
      | [] => none
    else none
  else
    match cs.dropWhile isArchChar with
    | c :: r2 =>
      if c = '/' then
        let ds := r2.take 7
        if ds.length == 7 && ds.all Char.isDigit then
          some (arch ++ '/' :: ds, urlVersionGroup (r2.drop 7))
        else none
      else none
    | [] => none

/-- The literal prefix `arxiv\.org/` of `urlPattern`. -/
def arxivOrgChars : List Char := ['a', 'r', 'x', 'i', 'v', '.', 'o', 'r', 'g', '/']

/-- Attempt to match `urlPattern` starting exactly at the head of `cs`. -/
def matchUrlAt (cs : List Char) : Option (List Char × List Char) :=
  match stripPrefixL arxivOrgChars cs with
  | none => none
  | some r =>
    match stripPrefixL ['a', 'b', 's', '/'] r with
    | some r2 => matchIDPart r2
    | none =>
      match stripPrefixL ['p', 'd', 'f', '/'] r with
      | some r2 => matchIDPart r2
      | none => none

/-- `urlPattern.FindStringSubmatch`: leftmost match, returning the two capture
groups. -/
def urlFind : List Char → Option (List Char × List Char)
  | [] => none
  | c :: rest =>
    match matchUrlAt (c :: rest) with
    | some v => some v
    | none => urlFind rest

/-- `NormalizeArxivID` from `internal/arxiv/client.go`: trim whitespace, try
URL extraction first (appending the version submatch when present), then the
two anchored bare-identifier patterns; otherwise report
`"invalid arXiv ID or URL: %s"` with the (trimmed) input. -/
def NormalizeArxivID (input : String) : Except String String :=
  let t := goTrimSpace input
  match urlFind t.data with
  | some (g1, g2) => .ok (String.mk (g1 ++ g2))
  | none =>
    if matchOld t.data || matchNew t.data then .ok t
    else .error ("invalid arXiv ID or URL: " ++ t)

/-- `IsValidArxivID` from `internal/arxiv/client.go`. -/
def IsValidArxivID (input : String) : Bool :=
  match NormalizeArxivID input with
  | .ok _ => true
  | .error _ => false

-- sanity checks against the repository's own test table (removed later)
example : NormalizeArxivID "2304.00067" = .ok "2304.00067" := rfl
example : NormalizeArxivID "2304.00067v2" = .ok "2304.00067v2" := rfl
example : NormalizeArxivID "2304.12345" = .ok "2304.12345" := rfl
example : NormalizeArxivID "  2304.00067  " = .ok "2304.00067" := rfl
example : NormalizeArxivID "hep-th/9901001" = .ok "hep-th/9901001" := rfl
example : NormalizeArxivID "hep-th/9901001v1" = .ok "hep-th/9901001v1" := rfl
example : NormalizeArxivID "cond-mat/0001234" = .ok "cond-mat/0001234" := rfl
example : NormalizeArxivID "https://arxiv.org/abs/2304.00067" = .ok "2304.00067" := rfl
example : NormalizeArxivID "https://arxiv.org/abs/2304.00067v2" = .ok "2304.00067v2" := rfl
example : NormalizeArxivID "https://arxiv.org/abs/hep-th/9901001" = .ok "hep-th/9901001" := rfl
example : NormalizeArxivID "http://arxiv.org/abs/2304.00067" = .ok "2304.00067" := rfl
example : NormalizeArxivID "https://arxiv.org/pdf/2304.00067.pdf" = .ok "2304.00067" := rfl
example : NormalizeArxivID "https://arxiv.org/pdf/2304.00067v2.pdf" = .ok "2304.00067v2" := rfl
example : NormalizeArxivID "https://arxiv.org/pdf/hep-th/9901001.pdf" = .ok "hep-th/9901001" := rfl
example : NormalizeArxivID "" = .error "invalid arXiv ID or URL: " := rfl
example : NormalizeArxivID "not an arxiv id" = .error "invalid arXiv ID or URL: not an arxiv id" := rfl
example : NormalizeArxivID "1234.56" = .error "invalid arXiv ID or URL: 1234.56" := rfl
example : NormalizeArxivID "https://example.com/abs/2304.00067" =
    .error "invalid arXiv ID or URL: https://example.com/abs/2304.00067" := rfl
example : NormalizeArxivID "2304" = .error "invalid arXiv ID or URL: 2304" := rfl
example : NormalizeArxivID "2304.00067v99" = .ok "2304.00067v99" := rfl
example : NormalizeArxivID "https://www.arxiv.org/abs/2304.00067" = .ok "2304.00067" := rfl
example : NormalizeArxivID "https://arxiv.org/abs/2304.00067/" = .ok "2304.00067" := rfl
example : NormalizeArxivID "https://export.arxiv.org/abs/2304.00067" = .ok "2304.00067" := rfl
example : NormalizeArxivID "astro-ph/0001001" = .ok "astro-ph/0001001" := rfl
example : NormalizeArxivID "2304.0001" = .ok "2304.0001" := rfl
example : NormalizeArxivID "2304.99999" = .ok "2304.99999" := rfl
example : NormalizeArxivID "2304.123456" = .error "invalid arXiv ID or URL: 2304.123456" := rfl
example : NormalizeArxivID "2304.123" = .error "invalid arXiv ID or URL: 2304.123" := rfl
example : NormalizeArxivID "2304.00067v" = .error "invalid arXiv ID or URL: 2304.00067v" := rfl
example : NormalizeArxivID "2304.00067v-1" = .error "invalid arXiv ID or URL: 2304.00067v-1" := rfl
example : NormalizeArxivID "   " = .error "invalid arXiv ID or URL: " := rfl
example : NormalizeArxivID "\n\t2304.00067\n\t" = .ok "2304.00067" := rfl
-- the interesting unanchored-pattern cases
example : NormalizeArxivID "ftp://arxiv.org/abs/2304.00067" = .ok "2304.00067" := rfl
example : NormalizeArxivID "arxiv.org/abs/2304.00067" = .ok "2304.00067" := rfl
example : NormalizeArxivID "https://notarxiv.org/abs/2304.00067" = .ok "2304.00067" := rfl
example : IsValidArxivID "2304.00067" = true := rfl
example : IsValidArxivID "https://example.com/2304.00067" = false := rfl

/-! ## Go time values

`articleToMeta` formats `time.Time` values with `time.RFC3339`;
`MetaToArticle` parses them back, discarding the error (`published, _ :=
time.Parse(...)`), which by the documented contract of `time.Parse` yields the
zero `time.Time` on failure. -/

/-- Modelled from the spec: a Go `time.Time` restricted to the fields the
RFC3339 textual format carries (seconds precision, minute-resolution zone
offset). -/
structure GoTime where
  year : Nat
  month : Nat
  day : Nat
  hour : Nat
  minute : Nat
  second : Nat
  offsetMin : Int
deriving DecidableEq, Repr

/-- The zero `time.Time` (January 1, year 1, 00:00:00 UTC), which Go's
`time.Parse` returns alongside an error on malformed input. -/
def GoTime.zero : GoTime := ⟨1, 1, 1, 0, 0, 0, 0⟩

/-- Left-pad a decimal numeral with zeros to the given width. -/
def padNum (w n : Nat) : String :=
  let s := toString n
  String.mk (List.replicate (w - s.length) '0') ++ s

/-- Modelled from the spec: the zone-offset part of Go's `time.RFC3339`
format, `Z` for UTC and `±hh:mm` otherwise. -/
def formatOffset (off : Int) : String :=
  if off = 0 then "Z"
  else
    let a := off.natAbs
    (if off < 0 then "-" else "+") ++ padNum 2 (a / 60) ++ ":" ++ padNum 2 (a % 60)

/-- Modelled from the spec: Go's `t.Format(time.RFC3339)` — a fixed, zoned,
seconds-precision textual timestamp `YYYY-MM-DDTHH:MM:SS<offset>`. -/
def formatRFC3339 (t : GoTime) : String :=
  padNum 4 t.year ++ "-" ++ padNum 2 t.month ++ "-" ++ padNum 2 t.day ++ "T" ++
    padNum 2 t.hour ++ ":" ++ padNum 2 t.minute ++ ":" ++ padNum 2 t.second ++
    formatOffset t.offsetMin

/-- Read exactly `n` decimal digits. -/
def readDigits (n : Nat) (cs : List Char) : Option (Nat × List Char) :=
  let ds := cs.take n
  if ds.length == n && ds.all Char.isDigit then some (digitsToNat ds, cs.drop n) else none

/-- Consume one expected character. -/
def expectChar (c : Char) : List Char → Option (List Char)
  | x :: r => if x = c then some r else none
  | [] => none

/-- Gregorian leap-year rule, as Go's date validation applies it. -/
def isLeapYear (y : Nat) : Bool :=
  (y % 4 == 0 && y % 100 != 0) || y % 400 == 0

/-- Number of days in a month, as Go's date validation applies it. -/
def daysInMonth (y m : Nat) : Nat :=
  if m = 2 then (if isLeapYear y then 29 else 28)
  else if m = 4 ∨ m = 6 ∨ m = 9 ∨ m = 11 then 30
  else 31

/-- An optional fractional-seconds part (`.` plus at least one digit), which
Go's `time.Parse` accepts after the seconds even with the RFC3339 layout. -/
def skipFraction (cs : List Char) : Option (List Char) :=
  match cs with
  | '.' :: r =>
    let ds := r.takeWhile Char.isDigit
    if ds.isEmpty then none else some (r.dropWhile Char.isDigit)
  | _ => some cs

/-- The zone offset: `Z`, or `±hh:mm`, consuming the whole remainder. -/
def parseOffset (cs : List Char) : Option Int :=
  match cs with
  | ['Z'] => some 0
  | '+' :: r =>
    match readDigits 2 r with
    | some (h, r2) =>
      match expectChar ':' r2 with
      | some r3 =>
        match readDigits 2 r3 with
        | some (m, r4) =>
          if r4 = [] ∧ h ≤ 23 ∧ m ≤ 59 then some (Int.ofNat (h * 60 + m)) else none
        | none => none
      | none => none
    | none => none
  | '-' :: r =>
    match readDigits 2 r with
    | some (h, r2) =>
      match expectChar ':' r2 with
      | some r3 =>
        match readDigits 2 r3 with
        | some (m, r4) =>
          if r4 = [] ∧ h ≤ 23 ∧ m ≤ 59 then some (-(Int.ofNat (h * 60 + m))) else none
        | none => none
      | none => none
    | none => none
  | _ => none

/-- Modelled from the spec: Go's `time.Parse(time.RFC3339, s)`, returning
`none` where Go returns an error: the fixed shape
`YYYY-MM-DDTHH:MM:SS[.fraction](Z|±hh:mm)` with range-validated components. -/
def parseRFC3339 (s : String) : Option GoTime := do
  let (y, r) ← readDigits 4 s.data
  let r ← expectChar '-' r
  let (mo, r) ← readDigits 2 r
  let r ← expectChar '-' r
  let (d, r) ← readDigits 2 r
  let r ← expectChar 'T' r
  let (h, r) ← readDigits 2 r
  let r ← expectChar ':' r
  let (mi, r) ← readDigits 2 r
  let r ← expectChar ':' r
  let (sec, r) ← readDigits 2 r
  let r ← skipFraction r
  let off ← parseOffset r
  if 1 ≤ mo ∧ mo ≤ 12 ∧ 1 ≤ d ∧ d ≤ daysInMonth y mo ∧ h ≤ 23 ∧ mi ≤ 59 ∧ sec ≤ 59 then
    some ⟨y, mo, d, h, mi, sec, off⟩
  else none

example : formatRFC3339 GoTime.zero = "0001-01-01T00:00:00Z" := rfl
example : parseRFC3339 "2023-04-01T00:00:00Z" = some ⟨2023, 4, 1, 0, 0, 0, 0⟩ := rfl
example : parseRFC3339 "2023-04-01T12:30:05+02:00" = some ⟨2023, 4, 1, 12, 30, 5, 120⟩ := rfl
example : parseRFC3339 "garbage" = none := rfl
example : parseRFC3339 "" = none := rfl
example : parseRFC3339 "2023-02-30T00:00:00Z" = none := rfl

/-! ## goarxiv helper methods

`articleToMeta` calls `article.BaseID()`, `article.Version()`,
`article.AbstractURL()` and `article.PDFURL()` from the external goarxiv
library. -/

/-- Split a trailing `v<digits>` version suffix off an identifier, if any. -/
def splitVersionSuffix (cs : List Char) : List Char × Option (List Char) :=
  let rds := cs.reverse.takeWhile Char.isDigit
  match cs.reverse.dropWhile Char.isDigit with
  | c :: pre =>
    if c = 'v' ∧ ¬rds.isEmpty then (pre.reverse, some rds.reverse) else (cs, none)
  | [] => (cs, none)

/-- Modelled from the spec: goarxiv's `Article.BaseID()` — the identifier with
any version suffix stripped. -/
def goarxivBaseID (s : String) : String :=
  String.mk (splitVersionSuffix s.data).1

/-- Modelled from the spec: goarxiv's `Article.Version()` — the parsed version
suffix, defaulting to 1 when the identifier carries no suffix. -/
def goarxivVersion (s : String) : Int :=
  match (splitVersionSuffix s.data).2 with
  | some ds => Int.ofNat (digitsToNat ds)
  | none => 1

/-- Modelled from the spec: goarxiv's `Article.AbstractURL()` — the canonical
abstract-page URL derived from the (still versioned) identifier. -/
def goarxivAbstractURL (id : String) : String :=
  "https://arxiv.org/abs/" ++ id

/-- Modelled from the spec: goarxiv's `Article.PDFURL()` — synthesized as
`https://arxiv.org/pdf/<base_identifier>.pdf`. -/
def goarxivPDFURL (id : String) : String :=
  "https://arxiv.org/pdf/" ++ goarxivBaseID id ++ ".pdf"

example : goarxivBaseID "2304.00067v2" = "2304.00067" := rfl
example : goarxivBaseID "2304.00067" = "2304.00067" := rfl
example : goarxivVersion "2304.00067v2" = 2 := rfl
example : goarxivVersion "2304.00067" = 1 := rfl
example : goarxivBaseID "hep-th/9901001v1" = "hep-th/9901001" := rfl

/-! ## The record types of the metadata mapper -/

/-- `goarxiv.Author`: a remote author with an optional (`*string`)
affiliation. -/
structure GoAuthor where
  Name : String
  Affiliation : Option String := none
deriving DecidableEq, Repr

/-- `goarxiv.Article`: the remote record, with exactly the fields this
repository reads and writes. Optional (`*string`) fields are `Option`s. -/
structure Article where
  ID : String := ""
  Title : String := ""
  Summary : String := ""
  Authors : List GoAuthor := []
  Published : GoTime := GoTime.zero
  Updated : GoTime := GoTime.zero
  PrimaryCategory : String := ""
  Categories : List String := []
  Comment : Option String := none
  JournalRef : Option String := none
  DOI : Option String := none
deriving DecidableEq, Repr

/-- `Author` from `internal/arxiv/client.go`: a locally persisted author;
affiliation absence is collapsed to the empty string. -/
structure Author where
  Name : String
  Affiliation : String := ""
deriving DecidableEq, Repr

/-- `ArxivMeta` from `internal/arxiv/client.go`: the locally persisted
record. -/
structure ArxivMeta where
  ID : String := ""
  ArxivID : String := ""
  Title : String := ""
  SourceType : String := ""
  URL : String := ""
  PDFURL : String := ""
  Published : String := ""
  Updated : String := ""
  Authors : List Author := []
  Abstract : String := ""
  Categories : List String := []
  PrimaryCategory : String := ""
  Comment : String := ""
  JournalRef : String := ""
  DOI : String := ""
  Version : Int := 0
  FetchedAt : String := ""
deriving DecidableEq, Repr

/-! ## The mapper -/

/-- The author conversion loop inside `articleToMeta`: name copied verbatim,
`nil` affiliation left as the zero value `""`. -/
def goAuthorToLocal (a : GoAuthor) : Author :=
  { Name := a.Name, Affiliation := a.Affiliation.getD "" }

/-- Body of `articleToMeta` for a non-nil article. The `now` argument is the
`time.Now()` clock read used for `FetchedAt`, passed explicitly. -/
def articleToMetaCore (now : GoTime) (article : Article) : ArxivMeta :=
  let baseID := goarxivBaseID article.ID
  { ID := "paper-" ++ baseID
    ArxivID := baseID
    Title := goTrimSpace article.Title
    SourceType := "arxiv"
    URL := goarxivAbstractURL article.ID
    PDFURL := goarxivPDFURL article.ID
    Published := formatRFC3339 article.Published
    Updated := formatRFC3339 article.Updated
    Authors := article.Authors.map goAuthorToLocal
    Abstract := goTrimSpace article.Summary
    Categories := article.Categories
    PrimaryCategory := article.PrimaryCategory
    Version := goarxivVersion article.ID
    FetchedAt := formatRFC3339 now
    Comment := article.Comment.getD ""
    JournalRef := article.JournalRef.getD ""
    DOI := article.DOI.getD "" }

/-- `articleToMeta` from `internal/arxiv/client.go`; the `*goarxiv.Article`
argument and `*ArxivMeta` result are `Option`s (`nil` is `none`). -/
def articleToMeta (now : GoTime) : Option Article → Option ArxivMeta
  | none => none
  | some article => some (articleToMetaCore now article)

/-- The author conversion loop inside `MetaToArticle`: name copied verbatim,
empty affiliation mapped back to `nil`, non-empty affiliation to a pointer to
a copy. -/
def localAuthorToGo (a : Author) : GoAuthor :=
  { Name := a.Name
    Affiliation := if a.Affiliation = "" then none else some a.Affiliation }

/-- Body of `MetaToArticle` for a non-nil meta. The two `time.Parse` calls
discard their error, so a failed parse leaves the zero `time.Time`. -/
def metaToArticleCore (meta : ArxivMeta) : Article :=
  { ID := meta.ArxivID
    Title := meta.Title
    Summary := meta.Abstract
    Authors := meta.Authors.map localAuthorToGo
    Published := (parseRFC3339 meta.Published).getD GoTime.zero
    Updated := (parseRFC3339 meta.Updated).getD GoTime.zero
    PrimaryCategory := meta.PrimaryCategory
    Categories := meta.Categories
    Comment := if meta.Comment = "" then none else some meta.Comment
    JournalRef := if meta.JournalRef = "" then none else some meta.JournalRef
    DOI := if meta.DOI = "" then none else some meta.DOI }

/-- `MetaToArticle` from `internal/arxiv/client.go`; the `*ArxivMeta` argument
and `*goarxiv.Article` result are `Option`s (`nil` is `none`). -/
def MetaToArticle : Option ArxivMeta → Option Article
  | none => none
  | some meta => some (metaToArticleCore meta)

-- sanity check mirroring TestArticleToMeta
example :
    articleToMeta ⟨2024, 1, 15, 10, 30, 0, 0⟩
      (some
        { ID := "2304.00067v2"
          Title := "  Test Paper Title  "
          Summary := "  This is the abstract.  "
          Authors := [{ Name := "Alice Smith", Affiliation := some "MIT" },
            { Name := "Bob Jones", Affiliation := none }]
          Published := ⟨2023, 4, 1, 0, 0, 0, 0⟩
          Updated := ⟨2023, 4, 15, 0, 0, 0, 0⟩
          PrimaryCategory := "cs.LG"
          Categories := ["cs.LG", "cs.AI"]
          Comment := some "10 pages, 5 figures"
          JournalRef := some "Nature 2023"
          DOI := some "10.1234/example" }) =
    some
      { ID := "paper-2304.00067"
        ArxivID := "2304.00067"
        Title := "Test Paper Title"
        SourceType := "arxiv"
        URL := "https://arxiv.org/abs/2304.00067v2"
        PDFURL := "https://arxiv.org/pdf/2304.00067.pdf"
        Published := "2023-04-01T00:00:00Z"
        Updated := "2023-04-15T00:00:00Z"
        Authors := [{ Name := "Alice Smith", Affiliation := "MIT" },
          { Name := "Bob Jones", Affiliation := "" }]
        Abstract := "This is the abstract."
        Categories := ["cs.LG", "cs.AI"]
        PrimaryCategory := "cs.LG"
        Comment := "10 pages, 5 figures"
        JournalRef := "Nature 2023"
        DOI := "10.1234/example"
        Version := 2
        FetchedAt := "2024-01-15T10:30:00Z" } := by decide

-- sanity check mirroring TestMetaToArticle
example :
    MetaToArticle
      (some
        { ID := "paper-2304.00067"
          ArxivID := "2304.00067"
          Title := "Test Paper"
          Abstract := "This is abstract"
          Authors := [{ Name := "Alice", Affiliation := "MIT" }, { Name := "Bob" }]
          Published := "2023-04-01T00:00:00Z"
          Updated := "2023-04-15T00:00:00Z"
          PrimaryCategory := "cs.LG"
          Categories := ["cs.LG", "cs.AI"]
          Comment := "10 pages"
          JournalRef := "Nature"
          DOI := "10.1234/test" }) =
    some
      { ID := "2304.00067"
        Title := "Test Paper"
        Summary := "This is abstract"
        Authors := [{ Name := "Alice", Affiliation := some "MIT" },
          { Name := "Bob", Affiliation := none }]
        Published := ⟨2023, 4, 1, 0, 0, 0, 0⟩
        Updated := ⟨2023, 4, 15, 0, 0, 0, 0⟩
        PrimaryCategory := "cs.LG"
        Categories := ["cs.LG", "cs.AI"]
        Comment := some "10 pages"
        JournalRef := some "Nature"
        DOI := some "10.1234/test" } := by decide

/-! ## List helper lemmas -/

theorem mem_takeWhile_pred {p : Char → Bool} {l : List Char} {c : Char}
    (h : c ∈ l.takeWhile p) : p c = true := by
  induction l with
  | nil => simp [List.takeWhile] at h
  | cons a l ih =>
    rw [List.takeWhile_cons] at h
    by_cases hp : p a
    · simp [hp] at h
      rcases h with rfl | h
      · exact hp
      · exact ih h
    · simp [hp] at h

theorem takeWhile_all {p : Char → Bool} {l : List Char}
    (h : ∀ c ∈ l, p c = true) : l.takeWhile p = l :=
  List.takeWhile_eq_self_iff.mpr h

theorem dropWhile_all {p : Char → Bool} {l : List Char}
    (h : ∀ c ∈ l, p c = true) : l.dropWhile p = [] := by
  induction l with
  | nil => rfl
  | cons a l ih =>
    rw [List.dropWhile_cons, if_pos (by simpa using h a (by simp))]
    exact ih fun c hc => h c (by simp [hc])

theorem takeWhile_append_not {p : Char → Bool} {xs : List Char} {y : Char} (ys : List Char)
    (hxs : ∀ c ∈ xs, p c = true) (hy : p y = false) :
    (xs ++ y :: ys).takeWhile p = xs := by
  induction xs with
  | nil => simp [List.takeWhile_cons, hy]
  | cons a xs ih =>
    rw [List.cons_append, List.takeWhile_cons, if_pos (by simpa using hxs a (by simp))]
    rw [ih fun c hc => hxs c (by simp [hc])]

theorem dropWhile_append_not {p : Char → Bool} {xs : List Char} {y : Char} (ys : List Char)
    (hxs : ∀ c ∈ xs, p c = true) (hy : p y = false) :
    (xs ++ y :: ys).dropWhile p = y :: ys := by
  induction xs with
  | nil => simp [List.dropWhile_cons, hy]
  | cons a xs ih =>
    rw [List.cons_append, List.dropWhile_cons, if_pos (by simpa using hxs a (by simp))]
    exact ih fun c hc => hxs c (by simp [hc])

theorem takeWhile_append_all {p : Char → Bool} {xs : List Char} (ys : List Char)
    (hxs : ∀ c ∈ xs, p c = true) :
    (xs ++ ys).takeWhile p = xs ++ ys.takeWhile p := by
  induction xs with
  | nil => rfl
  | cons a xs ih =>
    rw [List.cons_append, List.takeWhile_cons, if_pos (by simpa using hxs a (by simp))]
    rw [ih fun c hc => hxs c (by simp [hc])]
    rfl

theorem dropWhile_append_all {p : Char → Bool} {xs : List Char} (ys : List Char)
    (hxs : ∀ c ∈ xs, p c = true) :
    (xs ++ ys).dropWhile p = ys.dropWhile p := by
  induction xs with
  | nil => rfl
  | cons a xs ih =>
    rw [List.cons_append, List.dropWhile_cons, if_pos (by simpa using hxs a (by simp))]
    exact ih fun c hc => hxs c (by simp [hc])

theorem dropWhile_eq_self_of_head {p : Char → Bool} {y : Char} (ys : List Char)
    (hy : p y = false) : (y :: ys).dropWhile p = y :: ys := by
  simp [List.dropWhile_cons, hy]

/-! ## Character class lemmas -/

theorem goIsSpace_char_cases {c : Char} (h : goIsSpace c = true) :
    c = ' ' ∨ c = '\t' ∨ c = '\n' ∨ c = '\x0b' ∨ c = '\x0c' ∨ c = '\r' ∨
      c = '\x85' ∨ c = '\xa0' := by
  simp only [goIsSpace, Bool.or_eq_true, beq_iff_eq] at h
  tauto

theorem archChar_not_space {c : Char} (h : isArchChar c = true) : goIsSpace c = false := by
  cases hs : goIsSpace c with
  | false => rfl
  | true =>
    exfalso
    rcases goIsSpace_char_cases hs with rfl | rfl | rfl | rfl | rfl | rfl | rfl | rfl <;>
      exact absurd h (by decide)

theorem digit_not_space {c : Char} (h : c.isDigit = true) : goIsSpace c = false := by
  cases hs : goIsSpace c with
  | false => rfl
  | true =>
    exfalso
    rcases goIsSpace_char_cases hs with rfl | rfl | rfl | rfl | rfl | rfl | rfl | rfl <;>
      exact absurd h (by decide)

theorem digit_not_archChar {c : Char} (h : c.isDigit = true) : isArchChar c = false := by
  revert h
  unfold isArchChar Char.isLower Char.isDigit
  simp only [Bool.and_eq_true, decide_eq_true_eq, Bool.or_eq_false_iff,
    Bool.and_eq_false_iff, decide_eq_false_iff_not, beq_eq_false_iff_ne, ne_eq]
  intro h
  constructor
  · left
    intro hc
    have h1 : (97 : Nat) ≤ c.val.toNat := hc
    have h2 : c.val.toNat ≤ 57 := h.2
    omega
  · rintro rfl
    revert h
    decide

theorem archChar_not_digit {c : Char} (h : isArchChar c = true) : c.isDigit = false := by
  cases hd : c.isDigit with
  | false => rfl
  | true => exact absurd h (by simp [digit_not_archChar hd])

/-! ## Characterizations of the bare-identifier matchers -/

theorem matchVersionTail_cases {ver : List Char} (h : matchVersionTail ver = true) :
    ver = [] ∨ ∃ ds, ds ≠ [] ∧ (∀ c ∈ ds, c.isDigit = true) ∧ ver = 'v' :: ds := by
  match ver with
  | [] => exact Or.inl rfl
  | c :: r =>
    simp only [matchVersionTail, Bool.and_eq_true, beq_iff_eq, Bool.not_eq_true',
      List.isEmpty_eq_false, List.all_eq_true] at h
    exact Or.inr ⟨r, h.1.2, h.2, by rw [h.1.1]⟩

theorem matchVersionTail_chars {ver : List Char} (h : matchVersionTail ver = true) :
    ∀ c ∈ ver, c = 'v' ∨ c.isDigit = true := by
  rcases matchVersionTail_cases h with rfl | ⟨ds, _, hds, rfl⟩
  · simp
  · intro c hc
    rcases List.mem_cons.mp hc with rfl | hc
    · exact Or.inl rfl
    · exact Or.inr (hds c hc)

theorem matchOld_decomp {cs : List Char} (h : matchOld cs = true) :
    ∃ arch ds ver, cs = arch ++ '/' :: (ds ++ ver) ∧ arch ≠ [] ∧
      (∀ c ∈ arch, isArchChar c = true) ∧ ds.length = 7 ∧
      (∀ c ∈ ds, c.isDigit = true) ∧ matchVersionTail ver = true := by
  simp only [matchOld] at h
  cases hdrop : cs.dropWhile isArchChar with
  | nil => rw [hdrop] at h; simp at h
  | cons c r =>
    rw [hdrop] at h
    simp only [Bool.and_eq_true, beq_iff_eq, Bool.not_eq_true',
      List.isEmpty_eq_false, Nat.beq_eq] at h
    obtain ⟨⟨⟨hne, hc⟩, hlen⟩, hver⟩ := h
    refine ⟨cs.takeWhile isArchChar, r.takeWhile Char.isDigit, r.dropWhile Char.isDigit,
      ?_, hne, fun c hc => mem_takeWhile_pred hc, hlen, fun c hc => mem_takeWhile_pred hc, hver⟩
    conv_lhs => rw [← List.takeWhile_append_dropWhile (p := isArchChar) (l := cs)]
    rw [hdrop, hc, List.takeWhile_append_dropWhile]

theorem matchNew_decomp {cs : List Char} (h : matchNew cs = true) :
    ∃ d1 d2 ver, cs = d1 ++ '.' :: (d2 ++ ver) ∧ d1.length = 4 ∧
      (∀ c ∈ d1, c.isDigit = true) ∧ (d2.length = 4 ∨ d2.length = 5) ∧
      (∀ c ∈ d2, c.isDigit = true) ∧ matchVersionTail ver = true := by
  simp only [matchNew] at h
  cases hdrop : cs.dropWhile Char.isDigit with
  | nil => rw [hdrop] at h; simp at h
  | cons c r =>
    rw [hdrop] at h
    simp only [Bool.and_eq_true, beq_iff_eq, Bool.or_eq_true, Nat.beq_eq] at h
    obtain ⟨⟨⟨hlen, hc⟩, hlen2⟩, hver⟩ := h
    refine ⟨cs.takeWhile Char.isDigit, r.takeWhile Char.isDigit, r.dropWhile Char.isDigit,
      ?_, hlen, fun c hc => mem_takeWhile_pred hc, hlen2, fun c hc => mem_takeWhile_pred hc, hver⟩
    conv_lhs => rw [← List.takeWhile_append_dropWhile (p := Char.isDigit) (l := cs)]
    rw [hdrop, hc, List.takeWhile_append_dropWhile]

theorem matchOld_chars {cs : List Char} (h : matchOld cs = true) :
    ∀ c ∈ cs, isArchChar c = true ∨ c = '/' ∨ c.isDigit = true ∨ c = 'v' := by
  obtain ⟨arch, ds, ver, rfl, _, harch, _, hds, hver⟩ := matchOld_decomp h
  intro c hc
  simp only [List.mem_append, List.mem_cons] at hc
  rcases hc with hc | rfl | hc | hc
  · exact Or.inl (harch c hc)
  · exact Or.inr (Or.inl rfl)
  · exact Or.inr (Or.inr (Or.inl (hds c hc)))
  · rcases matchVersionTail_chars hver c hc with rfl | hd
    · exact Or.inr (Or.inr (Or.inr rfl))
    · exact Or.inr (Or.inr (Or.inl hd))

theorem matchNew_chars {cs : List Char} (h : matchNew cs = true) :
    ∀ c ∈ cs, c.isDigit = true ∨ c = '.' ∨ c = 'v' := by
  obtain ⟨d1, d2, ver, rfl, _, hd1, _, hd2, hver⟩ := matchNew_decomp h
  intro c hc
  simp only [List.mem_append, List.mem_cons] at hc
  rcases hc with hc | rfl | hc | hc
  · exact Or.inl (hd1 c hc)
  · exact Or.inr (Or.inl rfl)
  · exact Or.inl (hd2 c hc)
  · rcases matchVersionTail_chars hver c hc with rfl | hd
    · exact Or.inr (Or.inr rfl)
    · exact Or.inl hd

/-! ## Lemmas about the unanchored URL pattern -/

theorem isEmpty_false_of_ne {l : List Char} (h : l ≠ []) : l.isEmpty = false := by
  cases l with
  | nil => exact absurd rfl h
  | cons a l => rfl

theorem stripPrefixL_append (ps cs : List Char) : stripPrefixL ps (ps ++ cs) = some cs := by
  induction ps with
  | nil => rfl
  | cons p ps ih => simp [stripPrefixL, ih]

theorem stripPrefixL_eq_some {ps cs r : List Char} (h : stripPrefixL ps cs = some r) :
    cs = ps ++ r := by
  induction ps generalizing cs with
  | nil => simp [stripPrefixL] at h; simp [h]
  | cons p ps ih =>
    match cs with
    | [] => simp [stripPrefixL] at h
    | c :: cs =>
      simp only [stripPrefixL] at h
      split at h
      · next heq => subst heq; simpa using ih h
      · exact absurd h (by simp)

/-- A list that can safely follow the version group inside the URL pattern:
empty, or starting with a character that extends neither the digit run nor a
version suffix. -/
def tailSafe (T : List Char) : Prop :=
  T = [] ∨ ∃ c T2, T = c :: T2 ∧ c.isDigit = false ∧ c ≠ 'v'

theorem urlVersionGroup_ver {ver T : List Char} (hver : matchVersionTail ver = true)
    (hT : tailSafe T) : urlVersionGroup (ver ++ T) = ver := by
  rcases matchVersionTail_cases hver with rfl | ⟨ds, hne, hds, rfl⟩
  · rcases hT with rfl | ⟨c, T2, rfl, _, hcv⟩
    · rfl
    · simp [urlVersionGroup, hcv]
  · show urlVersionGroup ('v' :: (ds ++ T)) = 'v' :: ds
    have htw : (ds ++ T).takeWhile Char.isDigit = ds := by
      rcases hT with rfl | ⟨c, T2, rfl, hcd, _⟩
      · rw [List.append_nil]; exact takeWhile_all hds
      · exact takeWhile_append_not _ hds hcd
    simp [urlVersionGroup, htw, isEmpty_false_of_ne hne]

theorem matchIDPart_bare {X T : List Char} (hX : matchOld X = true ∨ matchNew X = true)
    (hT : tailSafe T) :
    ∃ g1 g2, matchIDPart (X ++ T) = some (g1, g2) ∧ g1 ++ g2 = X := by
  rcases hX with hold | hnew
  · obtain ⟨arch, ds, ver, hXeq, ha, harch, hlen, hds, hver⟩ := matchOld_decomp hold
    have hassoc : X ++ T = arch ++ '/' :: (ds ++ (ver ++ T)) := by
      rw [hXeq]; simp [List.append_assoc]
    refine ⟨arch ++ '/' :: ds, ver, ?_, by rw [hXeq]; simp [List.append_assoc]⟩
    rw [hassoc]
    have ht1 : (arch ++ '/' :: (ds ++ (ver ++ T))).takeWhile isArchChar = arch :=
      takeWhile_append_not _ harch (by decide)
    have ht2 : (arch ++ '/' :: (ds ++ (ver ++ T))).dropWhile isArchChar =
        '/' :: (ds ++ (ver ++ T)) :=
      dropWhile_append_not _ harch (by decide)
    have htake : (ds ++ (ver ++ T)).take 7 = ds := by
      rw [← hlen]; exact List.take_left ds _
    have hdrop : (ds ++ (ver ++ T)).drop 7 = ver ++ T := by
      rw [← hlen]; exact List.drop_left ds _
    have hcond : (ds.length == 7 && ds.all Char.isDigit) = true := by
      rw [hlen, List.all_eq_true.mpr hds]; rfl
    simp only [matchIDPart, ht1, ht2, isEmpty_false_of_ne ha, Bool.false_eq_true, if_false,
      htake, hdrop, hcond, if_true, urlVersionGroup_ver hver hT]
  · obtain ⟨d1, d2, ver, hXeq, hlen, hd1, hlen2, hd2, hver⟩ := matchNew_decomp hnew
    have hassoc : X ++ T = d1 ++ '.' :: (d2 ++ (ver ++ T)) := by
      rw [hXeq]; simp [List.append_assoc]
    have htwnil : (X ++ T).takeWhile isArchChar = [] := by
      rw [hassoc]
      match d1, hlen with
      | c0 :: d1r, _ =>
        rw [List.cons_append, List.takeWhile_cons,
          if_neg (by simp [digit_not_archChar (hd1 c0 (by simp))])]
    have htake : (d2 ++ (ver ++ T)).takeWhile Char.isDigit = d2 := by
      rcases matchVersionTail_cases hver with rfl | ⟨ds, hne, hds, rfl⟩
      · rcases hT with rfl | ⟨c, T2, rfl, hcd, _⟩
        · rw [List.nil_append, List.append_nil]; exact takeWhile_all hd2
        · rw [List.nil_append]; exact takeWhile_append_not _ hd2 hcd
      · show (d2 ++ ('v' :: (ds ++ T))).takeWhile Char.isDigit = d2
        exact takeWhile_append_not _ hd2 (by decide)
    have htake4 : (X ++ T).take 4 = d1 := by
      rw [hassoc, ← hlen]; exact List.take_left d1 _
    have hdrop4 : (X ++ T).drop 4 = '.' :: (d2 ++ (ver ++ T)) := by
      rw [hassoc, ← hlen]; exact List.drop_left d1 _
    have hcond : (d1.length == 4 && d1.all Char.isDigit) = true := by
      rw [hlen, List.all_eq_true.mpr hd1]; rfl
    refine ⟨d1 ++ '.' :: d2, ver, ?_, by rw [hXeq]; simp [List.append_assoc]⟩
    rcases hlen2 with h4 | h5
    · have hdrop2 : (d2 ++ (ver ++ T)).drop 4 = ver ++ T := by
        rw [← h4]; exact List.drop_left d2 _
      have hnot5 : ¬ (5 ≤ d2.length) := by omega
      simp only [matchIDPart, htwnil, List.isEmpty_nil, if_true, hcond, hdrop4, htake4,
        htake, hdrop2, if_neg hnot5, h4, urlVersionGroup_ver hver hT]
      simp [hcond]
    · have hdrop2 : (d2 ++ (ver ++ T)).drop 5 = ver ++ T := by
        rw [← h5]; exact List.drop_left d2 _
      have htake5 : d2.take 5 = d2 := by rw [← h5]; exact List.take_length d2
      have hyes5 : 5 ≤ d2.length := by omega
      simp only [matchIDPart, htwnil, List.isEmpty_nil, if_true, hcond, hdrop4, htake4,
        htake, hdrop2, htake5, if_pos hyes5, urlVersionGroup_ver hver hT]

theorem matchOld_build {arch ds : List Char} (ha : arch ≠ [])
    (harch : ∀ c ∈ arch, isArchChar c = true) (hlen : ds.length = 7)
    (hds : ∀ c ∈ ds, c.isDigit = true) : matchOld (arch ++ '/' :: ds) = true := by
  have ht1 : (arch ++ '/' :: ds).takeWhile isArchChar = arch :=
    takeWhile_append_not _ harch (by decide)
  have ht2 : (arch ++ '/' :: ds).dropWhile isArchChar = '/' :: ds :=
    dropWhile_append_not _ harch (by decide)
  simp only [matchOld, ht1, ht2, takeWhile_all hds, dropWhile_all hds]
  simp [isEmpty_false_of_ne ha, hlen, matchVersionTail]

theorem matchNew_build {d1 d2 : List Char} (h1 : d1.length = 4)
    (hd1 : ∀ c ∈ d1, c.isDigit = true) (h2 : d2.length = 4 ∨ d2.length = 5)
    (hd2 : ∀ c ∈ d2, c.isDigit = true) : matchNew (d1 ++ '.' :: d2) = true := by
  have ht1 : (d1 ++ '.' :: d2).takeWhile Char.isDigit = d1 :=
    takeWhile_append_not _ hd1 (by decide)
  have ht2 : (d1 ++ '.' :: d2).dropWhile Char.isDigit = '.' :: d2 :=
    dropWhile_append_not _ hd1 (by decide)
  simp only [matchNew, ht1, ht2, takeWhile_all hd2, dropWhile_all hd2]
  rcases h2 with h2 | h2 <;> simp [h1, h2, matchVersionTail]

theorem matchIDPart_isSome (T : List Char) {X : List Char}
    (hX : matchOld X = true ∨ matchNew X = true) :
    ∃ g1 g2, matchIDPart (X ++ T) = some (g1, g2) := by
  rcases hX with hold | hnew
  · obtain ⟨arch, ds, ver, hXeq, ha, harch, hlen, hds, hver⟩ := matchOld_decomp hold
    have hassoc : X ++ T = arch ++ '/' :: (ds ++ (ver ++ T)) := by
      rw [hXeq]; simp [List.append_assoc]
    rw [hassoc]
    have ht1 : (arch ++ '/' :: (ds ++ (ver ++ T))).takeWhile isArchChar = arch :=
      takeWhile_append_not _ harch (by decide)
    have ht2 : (arch ++ '/' :: (ds ++ (ver ++ T))).dropWhile isArchChar =
        '/' :: (ds ++ (ver ++ T)) :=
      dropWhile_append_not _ harch (by decide)
    have htake : (ds ++ (ver ++ T)).take 7 = ds := by
      rw [← hlen]; exact List.take_left ds _
    have hcond : (ds.length == 7 && ds.all Char.isDigit) = true := by
      rw [hlen, List.all_eq_true.mpr hds]; rfl
    refine ⟨arch ++ '/' :: ds, urlVersionGroup ((ds ++ (ver ++ T)).drop 7), ?_⟩
    simp only [matchIDPart, ht1, ht2, isEmpty_false_of_ne ha, Bool.false_eq_true, if_false,
      htake, hcond, if_true]
  · obtain ⟨d1, d2, ver, hXeq, hlen, hd1, hlen2, hd2, hver⟩ := matchNew_decomp hnew
    have hassoc : X ++ T = d1 ++ '.' :: (d2 ++ (ver ++ T)) := by
      rw [hXeq]; simp [List.append_assoc]
    rw [hassoc]
    have htwnil : (d1 ++ '.' :: (d2 ++ (ver ++ T))).takeWhile isArchChar = [] := by
      match d1, hlen with
      | c0 :: d1r, _ =>
        rw [List.cons_append, List.takeWhile_cons,
          if_neg (by simp [digit_not_archChar (hd1 c0 (by simp))])]
    have htake4 : (d1 ++ '.' :: (d2 ++ (ver ++ T))).take 4 = d1 := by
      rw [← hlen]; exact List.take_left d1 _
    have hdrop4 : (d1 ++ '.' :: (d2 ++ (ver ++ T))).drop 4 = '.' :: (d2 ++ (ver ++ T)) := by
      rw [← hlen]; exact List.drop_left d1 _
    have hcond : (d1.length == 4 && d1.all Char.isDigit) = true := by
      rw [hlen, List.all_eq_true.mpr hd1]; rfl
    have hD : (d2 ++ (ver ++ T)).takeWhile Char.isDigit =
        d2 ++ ((ver ++ T).takeWhile Char.isDigit) :=
      takeWhile_append_all _ hd2
    by_cases h5 : 5 ≤ ((d2 ++ (ver ++ T)).takeWhile Char.isDigit).length
    · refine ⟨d1 ++ '.' :: ((d2 ++ (ver ++ T)).takeWhile Char.isDigit).take 5,
        urlVersionGroup ((d2 ++ (ver ++ T)).drop 5), ?_⟩
      simp only [matchIDPart, htwnil, List.isEmpty_nil, if_true, htake4, hdrop4, hcond,
        if_pos h5]
    · have h4 : ((d2 ++ (ver ++ T)).takeWhile Char.isDigit).length = 4 := by
        have hlenD : ((d2 ++ (ver ++ T)).takeWhile Char.isDigit).length =
            d2.length + ((ver ++ T).takeWhile Char.isDigit).length := by
          rw [hD, List.length_append]
        rcases hlen2 with h | h <;> omega
      refine ⟨d1 ++ '.' :: (d2 ++ (ver ++ T)).takeWhile Char.isDigit,
        urlVersionGroup ((d2 ++ (ver ++ T)).drop 4), ?_⟩
      simp only [matchIDPart, htwnil, List.isEmpty_nil, if_true, htake4, hdrop4, hcond,
        if_neg h5, h4]
      simp [hcond]

theorem matchIDPart_some_decomp {cs g1 g2 : List Char}
    (h : matchIDPart cs = some (g1, g2)) :
    ∃ rest, cs = g1 ++ rest ∧ (matchOld g1 = true ∨ matchNew g1 = true) := by
  simp only [matchIDPart] at h
  split at h
  · -- the new-style alternative: no leading [a-z-] run
    split at h
    · next hcond =>
      split at h
      · next c r2 heq =>
        split at h
        · next hc =>
          subst hc
          have hlen4 : (cs.take 4).length = 4 ∧ ∀ c ∈ cs.take 4, c.isDigit = true := by
            simp only [Bool.and_eq_true, beq_iff_eq, List.all_eq_true] at hcond
            exact hcond
          split at h
          · next h5 =>
            simp only [Option.some.injEq, Prod.mk.injEq] at h
            obtain ⟨hg1, hg2⟩ := h
            subst hg1
            refine ⟨(r2.takeWhile Char.isDigit).drop 5 ++ r2.dropWhile Char.isDigit, ?_, ?_⟩
            · have hr2 : r2 = (r2.takeWhile Char.isDigit).take 5 ++
                  ((r2.takeWhile Char.isDigit).drop 5 ++ r2.dropWhile Char.isDigit) := by
                rw [← List.append_assoc, List.take_append_drop,
                  List.takeWhile_append_dropWhile]
              calc cs = cs.take 4 ++ cs.drop 4 := (List.take_append_drop 4 cs).symm
                _ = cs.take 4 ++ '.' :: r2 := by rw [heq]
                _ = cs.take 4 ++ '.' :: ((r2.takeWhile Char.isDigit).take 5 ++
                      ((r2.takeWhile Char.isDigit).drop 5 ++ r2.dropWhile Char.isDigit)) :=
                    congrArg (fun z => cs.take 4 ++ '.' :: z) hr2
                _ = (cs.take 4 ++ '.' :: (r2.takeWhile Char.isDigit).take 5) ++
                      ((r2.takeWhile Char.isDigit).drop 5 ++ r2.dropWhile Char.isDigit) := by
                    simp [List.append_assoc]
            · refine Or.inr (matchNew_build hlen4.1 hlen4.2 ?_ ?_)
              · right
                rw [List.length_take]
                omega
              · intro c hc
                exact mem_takeWhile_pred (List.take_subset _ _ hc)
          · split at h
            · next h4 =>
              simp only [Option.some.injEq, Prod.mk.injEq] at h
              obtain ⟨hg1, hg2⟩ := h
              subst hg1
              refine ⟨r2.dropWhile Char.isDigit, ?_, ?_⟩
              · calc cs = cs.take 4 ++ cs.drop 4 := (List.take_append_drop 4 cs).symm
                  _ = cs.take 4 ++ '.' :: r2 := by rw [heq]
                  _ = cs.take 4 ++ '.' ::
                        (r2.takeWhile Char.isDigit ++ r2.dropWhile Char.isDigit) :=
                      congrArg (fun z => cs.take 4 ++ '.' :: z)
                        (List.takeWhile_append_dropWhile Char.isDigit r2).symm
                  _ = (cs.take 4 ++ '.' :: r2.takeWhile Char.isDigit) ++
                        r2.dropWhile Char.isDigit := by
                      simp [List.append_assoc]
              · refine Or.inr (matchNew_build hlen4.1 hlen4.2 ?_ ?_)
                · left
                  simpa using h4
                · intro c hc
                  exact mem_takeWhile_pred hc
            · exact absurd h (by simp)
        · exact absurd h (by simp)
      · exact absurd h (by simp)
    · exact absurd h (by simp)
  · -- the old-style alternative
    next hA =>
    have hAne : cs.takeWhile isArchChar ≠ [] := by
      intro h0
      rw [h0] at hA
      exact hA rfl
    split at h
    · next c r2 heq =>
      split at h
      · next hc =>
        subst hc
        split at h
        · next hcond =>
          simp only [Bool.and_eq_true, beq_iff_eq, List.all_eq_true] at hcond
          simp only [Option.some.injEq, Prod.mk.injEq] at h
          obtain ⟨hg1, hg2⟩ := h
          subst hg1
          refine ⟨r2.drop 7, ?_, ?_⟩
          · calc cs = cs.takeWhile isArchChar ++ cs.dropWhile isArchChar :=
                  (List.takeWhile_append_dropWhile isArchChar cs).symm
              _ = cs.takeWhile isArchChar ++ '/' :: r2 := by rw [heq]
              _ = cs.takeWhile isArchChar ++ '/' :: (r2.take 7 ++ r2.drop 7) :=
                  congrArg (fun z => cs.takeWhile isArchChar ++ '/' :: z)
                    (List.take_append_drop 7 r2).symm
              _ = (cs.takeWhile isArchChar ++ '/' :: r2.take 7) ++ r2.drop 7 := by
                  simp [List.append_assoc]
          · exact Or.inl (matchOld_build hAne
              (fun c hc => mem_takeWhile_pred hc) hcond.1 hcond.2)
        · exact absurd h (by simp)
      · exact absurd h (by simp)
    · exact absurd h (by simp)

theorem matchUrlAt_none_of_ne {c : Char} (r : List Char) (hc : c ≠ 'a') :
    matchUrlAt (c :: r) = none := by
  simp [matchUrlAt, arxivOrgChars, stripPrefixL, hc]

theorem urlFind_append_skip {P : List Char} (cs : List Char) (hP : ∀ c ∈ P, c ≠ 'a') :
    urlFind (P ++ cs) = urlFind cs := by
  induction P with
  | nil => rfl
  | cons p P ih =>
    rw [List.cons_append, urlFind, matchUrlAt_none_of_ne _ (hP p (by simp))]
    exact ih fun c hc => hP c (by simp [hc])

theorem urlFind_cons_some {c : Char} {cs : List Char} {v : List Char × List Char}
    (h : matchUrlAt (c :: cs) = some v) : urlFind (c :: cs) = some v := by
  simp [urlFind, h]

theorem matchUrlAt_abs (rest : List Char) :
    matchUrlAt (arxivOrgChars ++ (['a', 'b', 's', '/'] ++ rest)) = matchIDPart rest := by
  have h1 : stripPrefixL arxivOrgChars (arxivOrgChars ++ (['a', 'b', 's', '/'] ++ rest)) =
      some (['a', 'b', 's', '/'] ++ rest) := stripPrefixL_append _ _
  have h2 : stripPrefixL ['a', 'b', 's', '/'] (['a', 'b', 's', '/'] ++ rest) = some rest :=
    stripPrefixL_append _ _
  simp only [matchUrlAt, h1, h2]

theorem matchUrlAt_pdf (rest : List Char) :
    matchUrlAt (arxivOrgChars ++ (['p', 'd', 'f', '/'] ++ rest)) = matchIDPart rest := by
  have h1 : stripPrefixL arxivOrgChars (arxivOrgChars ++ (['p', 'd', 'f', '/'] ++ rest)) =
      some (['p', 'd', 'f', '/'] ++ rest) := stripPrefixL_append _ _
  have h2 : stripPrefixL ['a', 'b', 's', '/'] (['p', 'd', 'f', '/'] ++ rest) = none := rfl
  have h3 : stripPrefixL ['p', 'd', 'f', '/'] (['p', 'd', 'f', '/'] ++ rest) = some rest :=
    stripPrefixL_append _ _
  simp only [matchUrlAt, h1, h2, h3]

theorem matchUrlAt_some_decomp {cs g1 g2 : List Char}
    (h : matchUrlAt cs = some (g1, g2)) :
    ∃ mid rest, cs = arxivOrgChars ++ (mid ++ (g1 ++ rest)) ∧
      (mid = ['a', 'b', 's', '/'] ∨ mid = ['p', 'd', 'f', '/']) ∧
      (matchOld g1 = true ∨ matchNew g1 = true) := by
  cases hsp : stripPrefixL arxivOrgChars cs with
  | none =>
    have hnone : matchUrlAt cs = none := by simp only [matchUrlAt, hsp]
    rw [hnone] at h
    exact absurd h (by simp)
  | some r =>
    have hcs := stripPrefixL_eq_some hsp
    cases habs : stripPrefixL ['a', 'b', 's', '/'] r with
    | some r2 =>
      have heq : matchUrlAt cs = matchIDPart r2 := by simp only [matchUrlAt, hsp, habs]
      rw [heq] at h
      obtain ⟨rest, hr2, hg⟩ := matchIDPart_some_decomp h
      exact ⟨['a', 'b', 's', '/'], rest,
        by rw [hcs, stripPrefixL_eq_some habs, hr2], Or.inl rfl, hg⟩
    | none =>
      cases hpdf : stripPrefixL ['p', 'd', 'f', '/'] r with
      | some r2 =>
        have heq : matchUrlAt cs = matchIDPart r2 := by
          simp only [matchUrlAt, hsp, habs, hpdf]
        rw [heq] at h
        obtain ⟨rest, hr2, hg⟩ := matchIDPart_some_decomp h
        exact ⟨['p', 'd', 'f', '/'], rest,
          by rw [hcs, stripPrefixL_eq_some hpdf, hr2], Or.inr rfl, hg⟩
      | none =>
        have hnone : matchUrlAt cs = none := by simp only [matchUrlAt, hsp, habs, hpdf]
        rw [hnone] at h
        exact absurd h (by simp)

theorem urlFind_some_decomp {cs g1 g2 : List Char}
    (h : urlFind cs = some (g1, g2)) :
    ∃ pre mid rest, cs = pre ++ (arxivOrgChars ++ (mid ++ (g1 ++ rest))) ∧
      (mid = ['a', 'b', 's', '/'] ∨ mid = ['p', 'd', 'f', '/']) ∧
      (matchOld g1 = true ∨ matchNew g1 = true) := by
  induction cs with
  | nil => simp [urlFind] at h
  | cons c r ih =>
    rw [urlFind] at h
    cases hm : matchUrlAt (c :: r) with
    | some w =>
      obtain ⟨w1, w2⟩ := w
      rw [hm] at h
      simp only [Option.some.injEq, Prod.mk.injEq] at h
      obtain ⟨rfl, rfl⟩ := h
      obtain ⟨mid, rest, hcs, hmid, hg⟩ := matchUrlAt_some_decomp hm
      exact ⟨[], mid, rest, by rw [List.nil_append, hcs], hmid, hg⟩
    | none =>
      rw [hm] at h
      obtain ⟨pre, mid, rest, hcs, hmid, hg⟩ := ih h
      exact ⟨c :: pre, mid, rest, by rw [List.cons_append, hcs], hmid, hg⟩

theorem urlFind_isSome_append (pre : List Char) {rest : List Char}
    {v : List Char × List Char} (hne : rest ≠ []) (h : matchUrlAt rest = some v) :
    ∃ w, urlFind (pre ++ rest) = some w := by
  induction pre with
  | nil =>
    cases rest with
    | nil => exact absurd rfl hne
    | cons c r => exact ⟨v, by rw [List.nil_append]; exact urlFind_cons_some h⟩
  | cons p pre ih =>
    rw [List.cons_append]
    cases hm : matchUrlAt (p :: (pre ++ rest)) with
    | some w => exact ⟨w, by simp [urlFind, hm]⟩
    | none =>
      obtain ⟨w, hw⟩ := ih
      exact ⟨w, by simp [urlFind, hm, hw]⟩

theorem matchUrlAt_some_mem {cs : List Char} {v : List Char × List Char}
    (h : matchUrlAt cs = some v) : '.' ∈ cs ∧ 'a' ∈ cs := by
  cases hsp : stripPrefixL arxivOrgChars cs with
  | none => simp [matchUrlAt, hsp] at h
  | some r =>
    have := stripPrefixL_eq_some hsp
    subst this
    exact ⟨List.mem_append_left _ (by decide), List.mem_append_left _ (by decide)⟩

theorem urlFind_some_mem {cs : List Char} {v : List Char × List Char}
    (h : urlFind cs = some v) : '.' ∈ cs ∧ 'a' ∈ cs := by
  induction cs with
  | nil => simp [urlFind] at h
  | cons c r ih =>
    rw [urlFind] at h
    cases hm : matchUrlAt (c :: r) with
    | some w => exact matchUrlAt_some_mem hm
    | none =>
      rw [hm] at h
      have := ih h
      exact ⟨List.mem_cons_of_mem _ this.1, List.mem_cons_of_mem _ this.2⟩

theorem urlFind_none_of_old {cs : List Char} (h : matchOld cs = true) :
    urlFind cs = none := by
  cases hu : urlFind cs with
  | none => rfl
  | some v =>
    exfalso
    have hdot : '.' ∈ cs := (urlFind_some_mem hu).1
    rcases matchOld_chars h '.' hdot with hc | hc | hc | hc <;> exact absurd hc (by decide)

theorem urlFind_none_of_new {cs : List Char} (h : matchNew cs = true) :
    urlFind cs = none := by
  cases hu : urlFind cs with
  | none => rfl
  | some v =>
    exfalso
    have ha : 'a' ∈ cs := (urlFind_some_mem hu).2
    rcases matchNew_chars h 'a' ha with hc | hc | hc <;> exact absurd hc (by decide)

/-! ## Whitespace lemmas -/

theorem dropWhile_eq_self_all {p : Char → Bool} {l : List Char}
    (h : ∀ c ∈ l, p c = false) : l.dropWhile p = l := by
  cases l with
  | nil => rfl
  | cons a l => exact dropWhile_eq_self_of_head l (h a (by simp))

theorem goTrimSpace_eq_self {s : String} (h : ∀ c ∈ s.data, goIsSpace c = false) :
    goTrimSpace s = s := by
  unfold goTrimSpace
  rw [dropWhile_eq_self_all h,
    dropWhile_eq_self_all (fun c hc => h c (List.mem_reverse.mp hc)),
    List.reverse_reverse]

theorem goTrimSpace_all_space {s : String} (h : ∀ c ∈ s.data, goIsSpace c = true) :
    goTrimSpace s = "" := by
  unfold goTrimSpace
  rw [dropWhile_all h]
  rfl

theorem bare_no_space {X : List Char} (hX : matchOld X = true ∨ matchNew X = true) :
    ∀ c ∈ X, goIsSpace c = false := by
  intro c hc
  rcases hX with hold | hnew
  · rcases matchOld_chars hold c hc with h | rfl | h | rfl
    · exact archChar_not_space h
    · decide
    · exact digit_not_space h
    · decide
  · rcases matchNew_chars hnew c hc with h | rfl | rfl
    · exact digit_not_space h
    · decide
    · decide

/-! ## The normalizer on bare identifiers and on URLs -/

theorem normalize_bare_trimmed {s : String}
    (h : matchOld (goTrimSpace s).data = true ∨ matchNew (goTrimSpace s).data = true) :
    NormalizeArxivID s = .ok (goTrimSpace s) := by
  have hurl : urlFind (goTrimSpace s).data = none := by
    rcases h with h | h
    · exact urlFind_none_of_old h
    · exact urlFind_none_of_new h
  simp only [NormalizeArxivID, hurl]
  rcases h with h | h <;> simp [h]

theorem normalize_url_generic (s X : String) (pre mid T : List Char)
    (hdata : s.data = pre ++ (arxivOrgChars ++ (mid ++ (X.data ++ T))))
    (hpre : ∀ c ∈ pre, c ≠ 'a' ∧ goIsSpace c = false)
    (hmid : mid = ['a', 'b', 's', '/'] ∨ mid = ['p', 'd', 'f', '/'])
    (hX : matchOld X.data = true ∨ matchNew X.data = true)
    (hT : tailSafe T) (hTns : ∀ c ∈ T, goIsSpace c = false) :
    NormalizeArxivID s = .ok X := by
  have hXns := bare_no_space hX
  have hns : ∀ c ∈ s.data, goIsSpace c = false := by
    rw [hdata]
    intro c hc
    simp only [List.mem_append] at hc
    rcases hc with hc | hc | hc | hc | hc
    · exact (hpre c hc).2
    · exact (by decide : ∀ c ∈ arxivOrgChars, goIsSpace c = false) c hc
    · rcases hmid with rfl | rfl
      · exact (by decide : ∀ c ∈ ['a', 'b', 's', '/'], goIsSpace c = false) c hc
      · exact (by decide : ∀ c ∈ ['p', 'd', 'f', '/'], goIsSpace c = false) c hc
    · exact hXns c hc
    · exact hTns c hc
  have htrim : goTrimSpace s = s := goTrimSpace_eq_self hns
  obtain ⟨g1, g2, hmatch, hg⟩ := matchIDPart_bare hX hT
  have hurlAt : matchUrlAt (arxivOrgChars ++ (mid ++ (X.data ++ T))) = some (g1, g2) := by
    rcases hmid with rfl | rfl
    · rw [matchUrlAt_abs]; exact hmatch
    · rw [matchUrlAt_pdf]; exact hmatch
  have hfind : urlFind s.data = some (g1, g2) := by
    rw [hdata, urlFind_append_skip _ fun c hc => (hpre c hc).1]
    exact urlFind_cons_some hurlAt
  simp only [NormalizeArxivID, htrim, hfind]
  rw [hg]

/-! ## Claim theorems -/

/-- C1 counterexample: the claim asserts that a URL with a non-HTTP(S) scheme
(e.g. `ftp://arxiv.org/abs/2304.00067`) is rejected by `NormalizeArxivID` and
`IsValidArxivID`; in fact `urlPattern` is unanchored, so the substring
`arxiv.org/abs/2304.00067` matches and the input is accepted. -/
theorem c1_counterexample :
    NormalizeArxivID "ftp://arxiv.org/abs/2304.00067" = .ok "2304.00067" ∧
    IsValidArxivID "ftp://arxiv.org/abs/2304.00067" = true := ⟨rfl, rfl⟩

/-- C1 (amended): `NormalizeArxivID` checks neither scheme nor host, because
`urlPattern` is unanchored. Universally: (i) any input whose whitespace-trimmed
text contains the substring `arxiv.org/abs/<id>` or `arxiv.org/pdf/<id>` for a
bare-grammar-valid `<id>` — whatever text surrounds it, so in particular
`ftp://` schemes, missing schemes, and hosts like `notarxiv.org` — is
accepted, with `IsValidArxivID` true; (ii) conversely every successful URL
extraction arises from such a substring, the extracted group itself matching a
bare grammar; (iii) an input whose trimmed text contains no such substring and
matches neither bare-identifier pattern is rejected, with `IsValidArxivID`
false. The claim's three example categories and its rejected example evaluate
accordingly. -/
theorem c1_amended :
    (∀ (s : String) (pre mid T : List Char) (X : String),
      (goTrimSpace s).data = pre ++ (arxivOrgChars ++ (mid ++ (X.data ++ T))) →
      (mid = ['a', 'b', 's', '/'] ∨ mid = ['p', 'd', 'f', '/']) →
      (matchOld X.data = true ∨ matchNew X.data = true) →
      (∃ r, NormalizeArxivID s = .ok r) ∧ IsValidArxivID s = true) ∧
    (∀ (s : String) (g1 g2 : List Char),
      urlFind (goTrimSpace s).data = some (g1, g2) →
      NormalizeArxivID s = .ok (String.mk (g1 ++ g2)) ∧
      ∃ pre mid rest,
        (goTrimSpace s).data = pre ++ (arxivOrgChars ++ (mid ++ (g1 ++ rest))) ∧
        (mid = ['a', 'b', 's', '/'] ∨ mid = ['p', 'd', 'f', '/']) ∧
        (matchOld g1 = true ∨ matchNew g1 = true)) ∧
    (∀ s : String,
      (¬ ∃ pre mid g rest,
        (goTrimSpace s).data = pre ++ (arxivOrgChars ++ (mid ++ (g ++ rest))) ∧
        (mid = ['a', 'b', 's', '/'] ∨ mid = ['p', 'd', 'f', '/']) ∧
        (matchOld g = true ∨ matchNew g = true)) →
      matchOld (goTrimSpace s).data = false → matchNew (goTrimSpace s).data = false →
      NormalizeArxivID s = .error ("invalid arXiv ID or URL: " ++ goTrimSpace s) ∧
      IsValidArxivID s = false) ∧
    NormalizeArxivID "ftp://arxiv.org/abs/2304.00067" = .ok "2304.00067" ∧
    NormalizeArxivID "arxiv.org/abs/2304.00067" = .ok "2304.00067" ∧
    NormalizeArxivID "https://notarxiv.org/abs/2304.00067" = .ok "2304.00067" ∧
    NormalizeArxivID "https://example.com/abs/2304.00067" =
      .error "invalid arXiv ID or URL: https://example.com/abs/2304.00067" ∧
    IsValidArxivID "ftp://arxiv.org/abs/2304.00067" = true ∧
    IsValidArxivID "arxiv.org/abs/2304.00067" = true ∧
    IsValidArxivID "https://notarxiv.org/abs/2304.00067" = true ∧
    IsValidArxivID "https://example.com/abs/2304.00067" = false := by
  refine ⟨?_, ?_, ?_, rfl, rfl, rfl, rfl, rfl, rfl, rfl, rfl⟩
  · intro s pre mid T X hdata hmid hX
    obtain ⟨g1, g2, hid⟩ := matchIDPart_isSome T hX
    have hat : matchUrlAt (arxivOrgChars ++ (mid ++ (X.data ++ T))) = some (g1, g2) := by
      rcases hmid with rfl | rfl
      · rw [matchUrlAt_abs]; exact hid
      · rw [matchUrlAt_pdf]; exact hid
    obtain ⟨w, hw⟩ := urlFind_isSome_append pre (by simp [arxivOrgChars]) hat
    rw [← hdata] at hw
    obtain ⟨w1, w2⟩ := w
    have hok : NormalizeArxivID s = .ok (String.mk (w1 ++ w2)) := by
      simp only [NormalizeArxivID, hw]
    refine ⟨⟨String.mk (w1 ++ w2), hok⟩, ?_⟩
    simp only [IsValidArxivID, hok]
  · intro s g1 g2 h
    have hok : NormalizeArxivID s = .ok (String.mk (g1 ++ g2)) := by
      simp only [NormalizeArxivID, h]
    obtain ⟨pre, mid, rest, hcs, hmid, hg⟩ := urlFind_some_decomp h
    exact ⟨hok, pre, mid, rest, hcs, hmid, hg⟩
  · intro s hno hold hnew
    have hu : urlFind (goTrimSpace s).data = none := by
      cases hu : urlFind (goTrimSpace s).data with
      | none => rfl
      | some v =>
        obtain ⟨v1, v2⟩ := v
        obtain ⟨pre, mid, rest, hcs, hmid, hg⟩ := urlFind_some_decomp hu
        exact absurd ⟨pre, mid, v1, rest, hcs, hmid, hg⟩ hno
    have herr : NormalizeArxivID s =
        .error ("invalid arXiv ID or URL: " ++ goTrimSpace s) := by
      simp only [NormalizeArxivID, hu, hold, hnew]
      rfl
    exact ⟨herr, by simp only [IsValidArxivID, herr]⟩

/-- C1 (amended) witness: the universal acceptance part at the non-HTTP(S)
input `ftp://arxiv.org/abs/2304.00067`, and the universal rejection part at
`https://example.com/abs/2304.00067` (whose trimmed text provably contains no
`arxiv.org/(abs|pdf)/<id>` substring). -/
theorem c1_amended_witness :
    ((∃ r, NormalizeArxivID "ftp://arxiv.org/abs/2304.00067" = .ok r) ∧
      IsValidArxivID "ftp://arxiv.org/abs/2304.00067" = true) ∧
    (NormalizeArxivID "https://example.com/abs/2304.00067" =
        .error ("invalid arXiv ID or URL: " ++
          goTrimSpace "https://example.com/abs/2304.00067") ∧
      IsValidArxivID "https://example.com/abs/2304.00067" = false) := by
  constructor
  · exact c1_amended.1 "ftp://arxiv.org/abs/2304.00067" ['f', 't', 'p', ':', '/', '/']
      ['a', 'b', 's', '/'] [] "2304.00067" (by decide) (Or.inl rfl) (Or.inr (by decide))
  · refine c1_amended.2.2.1 "https://example.com/abs/2304.00067" ?_ (by decide) (by decide)
    rintro ⟨pre, mid, g, rest, hcs, hmid, hg⟩
    obtain ⟨g1, g2, hid⟩ := matchIDPart_isSome rest hg
    have hat : matchUrlAt (arxivOrgChars ++ (mid ++ (g ++ rest))) = some (g1, g2) := by
      rcases hmid with rfl | rfl
      · rw [matchUrlAt_abs]; exact hid
      · rw [matchUrlAt_pdf]; exact hid
    obtain ⟨w, hw⟩ := urlFind_isSome_append pre (by simp [arxivOrgChars]) hat
    rw [← hcs] at hw
    have hnone :
        urlFind (goTrimSpace "https://example.com/abs/2304.00067").data = none := by decide
    rw [hnone] at hw
    exact Option.noConfusion hw

/-- C3: for every identifier accepted by the bare-identifier grammars, the
abs-page URL under `https`, `http`, `www.` and `export.` hosts, the
pdf URL (version-bearing included), and a trailing-slash form are all accepted
and yield the same canonical result as normalizing the identifier directly. -/
theorem c3_url_forms (X : String)
    (h : matchOld X.data = true ∨ matchNew X.data = true) :
    NormalizeArxivID X = .ok X ∧
    NormalizeArxivID ("https://arxiv.org/abs/" ++ X) = .ok X ∧
    NormalizeArxivID ("http://arxiv.org/abs/" ++ X) = .ok X ∧
    NormalizeArxivID ("https://www.arxiv.org/abs/" ++ X) = .ok X ∧
    NormalizeArxivID ("https://export.arxiv.org/abs/" ++ X) = .ok X ∧
    NormalizeArxivID ("https://arxiv.org/pdf/" ++ X ++ ".pdf") = .ok X ∧
    NormalizeArxivID ("https://arxiv.org/abs/" ++ X ++ "/") = .ok X := by
  have htrim : goTrimSpace X = X := goTrimSpace_eq_self (bare_no_space h)
  have hdirect : NormalizeArxivID X = .ok X := by
    have := normalize_bare_trimmed (s := X) (by rw [htrim]; exact h)
    rwa [htrim] at this
  refine ⟨hdirect, ?_, ?_, ?_, ?_, ?_, ?_⟩
  · refine normalize_url_generic _ X ['h', 't', 't', 'p', 's', ':', '/', '/']
      ['a', 'b', 's', '/'] [] ?_ (by decide) (Or.inl rfl) h (Or.inl rfl) (by simp)
    have h0 : ("https://arxiv.org/abs/" : String).data =
        ['h', 't', 't', 'p', 's', ':', '/', '/'] ++ (arxivOrgChars ++ ['a', 'b', 's', '/']) :=
      rfl
    rw [String.data_append, h0]
    simp [List.append_assoc]
  · refine normalize_url_generic _ X ['h', 't', 't', 'p', ':', '/', '/']
      ['a', 'b', 's', '/'] [] ?_ (by decide) (Or.inl rfl) h (Or.inl rfl) (by simp)
    have h0 : ("http://arxiv.org/abs/" : String).data =
        ['h', 't', 't', 'p', ':', '/', '/'] ++ (arxivOrgChars ++ ['a', 'b', 's', '/']) := rfl
    rw [String.data_append, h0]
    simp [List.append_assoc]
  · refine normalize_url_generic _ X ['h', 't', 't', 'p', 's', ':', '/', '/', 'w', 'w', 'w', '.']
      ['a', 'b', 's', '/'] [] ?_ (by decide) (Or.inl rfl) h (Or.inl rfl) (by simp)
    have h0 : ("https://www.arxiv.org/abs/" : String).data =
        ['h', 't', 't', 'p', 's', ':', '/', '/', 'w', 'w', 'w', '.'] ++
          (arxivOrgChars ++ ['a', 'b', 's', '/']) := rfl
    rw [String.data_append, h0]
    simp [List.append_assoc]
  · refine normalize_url_generic _ X
      ['h', 't', 't', 'p', 's', ':', '/', '/', 'e', 'x', 'p', 'o', 'r', 't', '.']
      ['a', 'b', 's', '/'] [] ?_ (by decide) (Or.inl rfl) h (Or.inl rfl) (by simp)
    have h0 : ("https://export.arxiv.org/abs/" : String).data =
        ['h', 't', 't', 'p', 's', ':', '/', '/', 'e', 'x', 'p', 'o', 'r', 't', '.'] ++
          (arxivOrgChars ++ ['a', 'b', 's', '/']) := rfl
    rw [String.data_append, h0]
    simp [List.append_assoc]
  · refine normalize_url_generic _ X ['h', 't', 't', 'p', 's', ':', '/', '/']
      ['p', 'd', 'f', '/'] ['.', 'p', 'd', 'f'] ?_ (by decide) (Or.inr rfl) h
      (Or.inr ⟨'.', ['p', 'd', 'f'], rfl, by decide, by decide⟩) (by decide)
    have h0 : ("https://arxiv.org/pdf/" : String).data =
        ['h', 't', 't', 'p', 's', ':', '/', '/'] ++ (arxivOrgChars ++ ['p', 'd', 'f', '/']) :=
      rfl
    have h1 : (".pdf" : String).data = ['.', 'p', 'd', 'f'] := rfl
    rw [String.data_append, String.data_append, h0, h1]
    simp [List.append_assoc]
  · refine normalize_url_generic _ X ['h', 't', 't', 'p', 's', ':', '/', '/']
      ['a', 'b', 's', '/'] ['/'] ?_ (by decide) (Or.inl rfl) h
      (Or.inr ⟨'/', [], rfl, by decide, by decide⟩) (by decide)
    have h0 : ("https://arxiv.org/abs/" : String).data =
        ['h', 't', 't', 'p', 's', ':', '/', '/'] ++ (arxivOrgChars ++ ['a', 'b', 's', '/']) :=
      rfl
    have h1 : ("/" : String).data = ['/'] := rfl
    rw [String.data_append, String.data_append, h0, h1]
    simp [List.append_assoc]

/-- C3 witness: the seven forms evaluated at the versioned old-style
identifier `hep-th/9901001v2`. -/
theorem c3_url_forms_witness :
    NormalizeArxivID "hep-th/9901001v2" = .ok "hep-th/9901001v2" ∧
    NormalizeArxivID ("https://arxiv.org/abs/" ++ "hep-th/9901001v2") = .ok "hep-th/9901001v2" ∧
    NormalizeArxivID ("http://arxiv.org/abs/" ++ "hep-th/9901001v2") = .ok "hep-th/9901001v2" ∧
    NormalizeArxivID ("https://www.arxiv.org/abs/" ++ "hep-th/9901001v2") =
      .ok "hep-th/9901001v2" ∧
    NormalizeArxivID ("https://export.arxiv.org/abs/" ++ "hep-th/9901001v2") =
      .ok "hep-th/9901001v2" ∧
    NormalizeArxivID ("https://arxiv.org/pdf/" ++ "hep-th/9901001v2" ++ ".pdf") =
      .ok "hep-th/9901001v2" ∧
    NormalizeArxivID ("https://arxiv.org/abs/" ++ "hep-th/9901001v2" ++ "/") =
      .ok "hep-th/9901001v2" :=
  c3_url_forms "hep-th/9901001v2" (Or.inl (by decide))

/-- C4: every string that, after whitespace trimming, matches the old-style or
new-style bare-identifier grammar is accepted by `NormalizeArxivID`, which
returns the trimmed input unchanged. -/
theorem c4_bare_returns_trimmed (s : String)
    (h : matchOld (goTrimSpace s).data = true ∨ matchNew (goTrimSpace s).data = true) :
    NormalizeArxivID s = .ok (goTrimSpace s) :=
  normalize_bare_trimmed h

/-- C4 witness: a new-style identifier surrounded by whitespace. -/
theorem c4_bare_returns_trimmed_witness :
    NormalizeArxivID "  2304.00067  " = .ok "2304.00067" :=
  c4_bare_returns_trimmed "  2304.00067  " (Or.inr (by decide))

/-- C5: `NormalizeArxivID` rejects every whitespace-only string (the empty
string included) and each of the listed malformed identifiers. -/
theorem c5_rejections :
    (∀ s : String, (∀ c ∈ s.data, goIsSpace c = true) →
      NormalizeArxivID s = .error "invalid arXiv ID or URL: ") ∧
    NormalizeArxivID "1234.56" = .error "invalid arXiv ID or URL: 1234.56" ∧
    NormalizeArxivID "2304.123456" = .error "invalid arXiv ID or URL: 2304.123456" ∧
    NormalizeArxivID "2304.123" = .error "invalid arXiv ID or URL: 2304.123" ∧
    NormalizeArxivID "2304.00067v" = .error "invalid arXiv ID or URL: 2304.00067v" ∧
    NormalizeArxivID "2304.00067v-1" = .error "invalid arXiv ID or URL: 2304.00067v-1" := by
  refine ⟨?_, rfl, rfl, rfl, rfl, rfl⟩
  intro s hs
  simp only [NormalizeArxivID, goTrimSpace_all_space hs]
  rfl

/-- C5 witness: rejection of the empty and of a whitespace-only string via the
universally quantified part. -/
theorem c5_rejections_witness :
    NormalizeArxivID "   " = .error "invalid arXiv ID or URL: " ∧
    NormalizeArxivID "" = .error "invalid arXiv ID or URL: " :=
  ⟨c5_rejections.1 "   " (by decide), c5_rejections.1 "" (by decide)⟩

/-- C9 counterexample: the claim asserts the error carries the input exactly
as supplied, including surrounding whitespace; the code trims before building
the message, so for the input `"  zzz  "` the message carries `zzz`, not
`"  zzz  "`. -/
theorem c9_counterexample :
    NormalizeArxivID "  zzz  " = .error "invalid arXiv ID or URL: zzz" ∧
    "invalid arXiv ID or URL: zzz" ≠ "invalid arXiv ID or URL: " ++ "  zzz  " :=
  ⟨rfl, by decide⟩

/-- C9 (amended): for every rejected input, the error message carries the
offending input after whitespace trimming, in the fixed format
`invalid arXiv ID or URL: <trimmed input>`. -/
theorem c9_error_carries_trimmed (s e : String)
    (h : NormalizeArxivID s = .error e) :
    e = "invalid arXiv ID or URL: " ++ goTrimSpace s := by
  simp only [NormalizeArxivID] at h
  cases hu : urlFind (goTrimSpace s).data with
  | some v =>
    obtain ⟨g1, g2⟩ := v
    rw [hu] at h
    simp at h
  | none =>
    rw [hu] at h
    by_cases hm : (matchOld (goTrimSpace s).data || matchNew (goTrimSpace s).data) = true
    · rw [if_pos hm] at h
      simp at h
    · rw [if_neg hm] at h
      exact (Except.error.inj h).symm

/-- C9 witness: the amended statement at the padded input `"  zzz  "`. -/
theorem c9_error_carries_trimmed_witness :
    "invalid arXiv ID or URL: zzz" = "invalid arXiv ID or URL: " ++ goTrimSpace "  zzz  " :=
  c9_error_carries_trimmed "  zzz  " "invalid arXiv ID or URL: zzz" rfl

/-- C2 counterexample: the claim asserts the round trip preserves the title
exactly for any record with non-empty optional fields; a title with
surrounding whitespace is trimmed by `articleToMeta`, so it is not restored
exactly. -/
theorem c2_counterexample :
    Option.map Article.Title
      (MetaToArticle (articleToMeta GoTime.zero
        (some { ID := "2304.00067", Title := " Padded Title ", Summary := "A",
                Comment := some "c", JournalRef := some "j", DOI := some "d" }))) =
      some "Padded Title" ∧
    (" Padded Title " : String) ≠ "Padded Title" :=
  ⟨rfl, by decide⟩

/-- C2 (amended): for every remote record whose optional comment, journal
reference and DOI are present and non-empty, the round trip
`MetaToArticle (articleToMeta R)` succeeds and preserves the primary category,
the category list and the author names exactly, and preserves title and
abstract up to surrounding-whitespace trimming (hence exactly whenever they
carry no surrounding whitespace); the optional fields survive as present
values. -/
theorem c2_roundtrip (t : GoTime) (A : Article) (c j d : String)
    (hc : A.Comment = some c) (hc2 : c ≠ "")
    (hj : A.JournalRef = some j) (hj2 : j ≠ "")
    (hd : A.DOI = some d) (hd2 : d ≠ "") :
    MetaToArticle (articleToMeta t (some A)) =
      some (metaToArticleCore (articleToMetaCore t A)) ∧
    (metaToArticleCore (articleToMetaCore t A)).Title = goTrimSpace A.Title ∧
    (metaToArticleCore (articleToMetaCore t A)).Summary = goTrimSpace A.Summary ∧
    (metaToArticleCore (articleToMetaCore t A)).PrimaryCategory = A.PrimaryCategory ∧
    (metaToArticleCore (articleToMetaCore t A)).Categories = A.Categories ∧
    (metaToArticleCore (articleToMetaCore t A)).Authors.map GoAuthor.Name =
      A.Authors.map GoAuthor.Name ∧
    (metaToArticleCore (articleToMetaCore t A)).Comment = some c ∧
    (metaToArticleCore (articleToMetaCore t A)).JournalRef = some j ∧
    (metaToArticleCore (articleToMetaCore t A)).DOI = some d := by
  refine ⟨rfl, rfl, rfl, rfl, rfl, ?_, ?_, ?_, ?_⟩
  · show ((A.Authors.map goAuthorToLocal).map localAuthorToGo).map GoAuthor.Name =
      A.Authors.map GoAuthor.Name
    rw [List.map_map, List.map_map]
    rfl
  · show (if (A.Comment.getD "") = "" then none else some (A.Comment.getD "")) = some c
    rw [hc]
    simp [hc2]
  · show (if (A.JournalRef.getD "") = "" then none else some (A.JournalRef.getD "")) = some j
    rw [hj]
    simp [hj2]
  · show (if (A.DOI.getD "") = "" then none else some (A.DOI.getD "")) = some d
    rw [hd]
    simp [hd2]

/-- C2 witness: the amended round trip evaluated on a concrete record with
non-empty optional fields and already-trimmed title/abstract. -/
theorem c2_roundtrip_witness :
    (metaToArticleCore (articleToMetaCore GoTime.zero
        { ID := "2304.00067v2", Title := "Round Trip Test", Summary := "Testing",
          Authors := [{ Name := "Test Author", Affiliation := none }],
          PrimaryCategory := "cs.LG", Categories := ["cs.LG"],
          Comment := some "c", JournalRef := some "j", DOI := some "d" })).Title =
      goTrimSpace "Round Trip Test" ∧
    (metaToArticleCore (articleToMetaCore GoTime.zero
        { ID := "2304.00067v2", Title := "Round Trip Test", Summary := "Testing",
          Authors := [{ Name := "Test Author", Affiliation := none }],
          PrimaryCategory := "cs.LG", Categories := ["cs.LG"],
          Comment := some "c", JournalRef := some "j", DOI := some "d" })).Authors.map
        GoAuthor.Name = [{ Name := "Test Author", Affiliation := none : GoAuthor }].map
        GoAuthor.Name := by
  have h := c2_roundtrip GoTime.zero
    { ID := "2304.00067v2", Title := "Round Trip Test", Summary := "Testing",
      Authors := [{ Name := "Test Author", Affiliation := none }],
      PrimaryCategory := "cs.LG", Categories := ["cs.LG"],
      Comment := some "c", JournalRef := some "j", DOI := some "d" }
    "c" "j" "d" rfl (by decide) rfl (by decide) rfl (by decide)
  exact ⟨h.2.1, h.2.2.2.2.2.1⟩

/-- C6: `articleToMeta` maps an absent (nil) remote affiliation to the empty
string, and a present affiliation verbatim; `MetaToArticle` maps an
empty-string affiliation back to absent (never to a present-but-empty value)
and a non-empty affiliation verbatim, for every author position. -/
theorem c6_affiliations (t : GoTime) (art : Article) (m : ArxivMeta) (i j : Nat)
    (ra : GoAuthor) (la : Author)
    (hra : art.Authors[i]? = some ra) (hla : m.Authors[j]? = some la) :
    (ra.Affiliation = none →
      (articleToMetaCore t art).Authors[i]? = some { Name := ra.Name, Affiliation := "" }) ∧
    (∀ s : String, s ≠ "" → ra.Affiliation = some s →
      (articleToMetaCore t art).Authors[i]? = some { Name := ra.Name, Affiliation := s }) ∧
    (la.Affiliation = "" →
      (metaToArticleCore m).Authors[j]? = some { Name := la.Name, Affiliation := none }) ∧
    (la.Affiliation ≠ "" →
      (metaToArticleCore m).Authors[j]? =
        some { Name := la.Name, Affiliation := some la.Affiliation }) := by
  have hfwd : (articleToMetaCore t art).Authors[i]? = some (goAuthorToLocal ra) := by
    show (art.Authors.map goAuthorToLocal)[i]? = some (goAuthorToLocal ra)
    rw [List.getElem?_map, hra]
    rfl
  have hrev : (metaToArticleCore m).Authors[j]? = some (localAuthorToGo la) := by
    show (m.Authors.map localAuthorToGo)[j]? = some (localAuthorToGo la)
    rw [List.getElem?_map, hla]
    rfl
  refine ⟨?_, ?_, ?_, ?_⟩
  · intro hnone
    rw [hfwd]
    simp [goAuthorToLocal, hnone]
  · intro s hs hsome
    rw [hfwd]
    simp [goAuthorToLocal, hsome]
  · intro hemp
    rw [hrev]
    simp [localAuthorToGo, hemp]
  · intro hne
    rw [hrev]
    simp [localAuthorToGo, hne]

/-- C6 witness: both directions at concrete single-author records. -/
theorem c6_affiliations_witness :
    (articleToMetaCore GoTime.zero
        { Authors := [{ Name := "Bob", Affiliation := none }] }).Authors[0]? =
      some { Name := "Bob", Affiliation := "" } ∧
    (metaToArticleCore { Authors := [{ Name := "Carol", Affiliation := "" }] }).Authors[0]? =
      some { Name := "Carol", Affiliation := none } := by
  have h := c6_affiliations GoTime.zero
    { Authors := [{ Name := "Bob", Affiliation := none }] }
    { Authors := [{ Name := "Carol", Affiliation := "" }] } 0 0
    { Name := "Bob", Affiliation := none } { Name := "Carol", Affiliation := "" } rfl rfl
  exact ⟨h.1 rfl, h.2.2.1 rfl⟩

/-- C7: both mapper directions send a null record to a null record; this is a
total, defined success path (the functions return, they do not fail). -/
theorem c7_null_in_null_out (t : GoTime) :
    articleToMeta t none = none ∧ MetaToArticle none = none :=
  ⟨rfl, rfl⟩

/-- C7 witness: the null case at a concrete clock value. -/
theorem c7_null_in_null_out_witness :
    articleToMeta GoTime.zero none = none ∧ MetaToArticle none = none :=
  c7_null_in_null_out GoTime.zero

/-- C8: when the stored `published` string fails to parse, `MetaToArticle`
substitutes the zero timestamp for that field, still returns a fully
converted record, and converts every other field as usual (the `updated`
field independently gets its own parse-or-zero value). -/
theorem c8_parse_failure_recovery (m : ArxivMeta)
    (h : parseRFC3339 m.Published = none) :
    MetaToArticle (some m) = some (metaToArticleCore m) ∧
    (metaToArticleCore m).Published = GoTime.zero ∧
    (metaToArticleCore m).Updated = (parseRFC3339 m.Updated).getD GoTime.zero ∧
    (metaToArticleCore m).ID = m.ArxivID ∧
    (metaToArticleCore m).Title = m.Title ∧
    (metaToArticleCore m).Summary = m.Abstract ∧
    (metaToArticleCore m).Categories = m.Categories ∧
    (metaToArticleCore m).PrimaryCategory = m.PrimaryCategory := by
  refine ⟨rfl, ?_, rfl, rfl, rfl, rfl, rfl, rfl⟩
  show (parseRFC3339 m.Published).getD GoTime.zero = GoTime.zero
  rw [h]
  rfl

/-- C8 witness: a malformed stored timestamp yields the zero time value while
the rest of the record converts. -/
theorem c8_parse_failure_recovery_witness :
    (metaToArticleCore { Published := "not-a-timestamp", Title := "T" }).Published =
      GoTime.zero ∧
    (metaToArticleCore { Published := "not-a-timestamp", Title := "T" }).Title = "T" := by
  have h := c8_parse_failure_recovery { Published := "not-a-timestamp", Title := "T" } rfl
  exact ⟨h.2.1, h.2.2.2.2.1⟩

/-- C10: `MetaToArticle` sets the exported identifier to the stored
`arxiv_id` and its result is unchanged under arbitrary modification of the
local `version`, `url`, `pdf_url` and `fetched_at` fields (as well as the
synthetic `id` and `source_type`), so a versioned paper exports with its
unversioned base identifier. -/
theorem c10_export_ignores_derived (m : ArxivMeta) (v : Int) (u p f i st : String) :
    MetaToArticle (some m) = some (metaToArticleCore m) ∧
    (metaToArticleCore m).ID = m.ArxivID ∧
    metaToArticleCore
        { m with Version := v, URL := u, PDFURL := p, FetchedAt := f, ID := i,
                 SourceType := st } =
      metaToArticleCore m :=
  ⟨rfl, rfl, rfl⟩

/-- C10 witness: a concrete versioned local record exports with its
unversioned base identifier, unaffected by the derived fields. -/
theorem c10_export_ignores_derived_witness :
    (metaToArticleCore { ArxivID := "2304.00067" }).ID = "2304.00067" ∧
    metaToArticleCore
        { ArxivID := "2304.00067", Version := 7, URL := "u", PDFURL := "p",
          FetchedAt := "f", ID := "paper-x", SourceType := "arxiv" } =
      metaToArticleCore { ArxivID := "2304.00067" } := by
  have h := c10_export_ignores_derived { ArxivID := "2304.00067" } 7 "u" "p" "f" "paper-x"
    "arxiv"
  exact ⟨h.2.1, h.2.2⟩

end ArcArxiv
